import Mathlib

set_option maxRecDepth 100000

/-!
# Verification of the virtualized text editor's core engine

Shallow embedding of the virtualization engine of the repository
(paragraph chunker, virtualization window manager, viewport tracker,
navigation coordinator, content edit router), together with proofs of the
spec's claims about it.

Conventions used throughout:
* JavaScript `number` values that only ever hold non-negative integers
  (chunk indices, word counts, pixel heights) are modelled as `Nat`;
  quantities that the source compares against `0` or subtracts are
  modelled as `Int` or `Rat` where it matters.
* `Math.max(0, a - b)` on such naturals is `Nat` truncated subtraction.
* `xs.slice(a, b)` with `0 ≤ a ≤ b ≤ xs.length` is `(xs.take b).drop a`.
-/

namespace VirtualTextEditor

/-! ## Chunker (`client/src/utils/paragraphChunker.ts`, `server/routes.ts`)

`chunkTextByParagraphs` splits the text into paragraphs and accumulates
them into chunks.  The server copy (`server/routes.ts`) is the same
algorithm with the constants `maxWordsPerPage = 600`,
`minWordsPerPage = 150`; the client copy takes them from `options`.
Both are covered by the parametrised embedding below. -/

/-- `String.split`-style splitting on a character predicate, on the
character list (structural recursion, so the kernel can evaluate it):
every separator character ends a piece; empty pieces are kept. -/
def splitChars (p : Char → Bool) : List Char → List (List Char)
  | [] => [[]]
  | c :: rest =>
    match splitChars p rest with
    | [] => [[]]
    | piece :: pieces =>
      if p c then [] :: piece :: pieces else (c :: piece) :: pieces

/-- `String.prototype.trim()`: strip leading and trailing whitespace. -/
def trimChars (cs : List Char) : List Char :=
  ((cs.dropWhile Char.isWhitespace).reverse.dropWhile Char.isWhitespace).reverse

/-- Word count of a paragraph: `paragraph.split(/\s+/).filter(w => w.length > 0).length`.
(Splitting on every whitespace character and dropping empty pieces is
exactly splitting on whitespace runs.) -/
def countWords (p : String) : Nat :=
  ((splitChars Char.isWhitespace p.data).filter (fun w => w ≠ [])).length

/-- Paragraph splitting:
`text.split(/\n\s*\n|\n/).map(p => p.trim()).filter(p => p.length > 0)`.
Splitting on the regex `\n\s*\n|\n` followed by `trim`/`filter` yields the
same list as splitting on every single newline followed by `trim`/`filter`:
the extra whitespace a `\n\s*\n` match consumes becomes all-whitespace
pieces, which trim to `""` and are filtered out. -/
def splitParagraphs (text : String) : List String :=
  (((splitChars (fun c => c = '\n') text.data).map
    (fun cs => String.mk (trimChars cs))).filter (fun p => p ≠ ""))

/-- The chunk record produced by the chunker (`ParagraphChunk` in
`paragraphChunker.ts`; the server variant omits `paragraphs`). -/
structure ParagraphChunk where
  id : String
  documentId : String
  chunkIndex : Nat
  content : String
  wordCount : Nat
  startWordIndex : Nat
  endWordIndex : Nat
  paragraphs : List String
  deriving Repr, DecidableEq

/-- The chunker loop's mutable locals. -/
structure ChunkState where
  chunks : List ParagraphChunk
  currentChunk : List String
  currentWordCount : Nat
  totalWordIndex : Nat
  chunkStartWordIndex : Nat
  deriving Repr, DecidableEq

/-- The `chunks.push({...})` record built from the current loop state
(the same record shape is pushed in the loop and after it). -/
def closeChunk (documentId : String) (s : ChunkState) : ParagraphChunk :=
  { id := documentId ++ "-chunk-" ++ toString s.chunks.length
    documentId := documentId
    chunkIndex := s.chunks.length
    content := String.intercalate "\n\n" s.currentChunk
    wordCount := s.currentWordCount
    startWordIndex := s.chunkStartWordIndex
    endWordIndex := s.totalWordIndex - 1
    paragraphs := s.currentChunk }

/-- One iteration of the `for (let i = 0; i < paragraphs.length; i++)` body
of `chunkTextByParagraphs`; `isLast` is the source's
`i === paragraphs.length - 1`.  The source's two `else` branches push the
paragraph onto the current chunk identically; they are the shared
`appendHere` below.  `totalWordIndex += paragraphWordCount` runs last in
every branch, as in the source. -/
def chunkStep (documentId : String) (maxWordsPerPage minWordsPerPage : Nat)
    (p : String) (isLast : Bool) (s : ChunkState) : ChunkState :=
  let paragraphWordCount := countWords p
  let appendHere : ChunkState :=
    { s with currentChunk := s.currentChunk ++ [p]
             currentWordCount := s.currentWordCount + paragraphWordCount }
  let s' :=
    if s.currentWordCount > 0 ∧ s.currentWordCount + paragraphWordCount > maxWordsPerPage then
      if s.currentWordCount ≥ minWordsPerPage ∨ isLast = true then
        { chunks := s.chunks ++ [closeChunk documentId s]
          currentChunk := [p]
          currentWordCount := paragraphWordCount
          totalWordIndex := s.totalWordIndex
          chunkStartWordIndex := s.totalWordIndex }
      else appendHere
    else appendHere
  { s' with totalWordIndex := s'.totalWordIndex + paragraphWordCount }

/-- The whole paragraph loop, as structural recursion over the remaining
paragraphs (`rest.isEmpty` is `i === paragraphs.length - 1`). -/
def chunkLoop (documentId : String) (maxWordsPerPage minWordsPerPage : Nat) :
    List String → ChunkState → ChunkState
  | [], s => s
  | p :: rest, s =>
    chunkLoop documentId maxWordsPerPage minWordsPerPage rest
      (chunkStep documentId maxWordsPerPage minWordsPerPage p rest.isEmpty s)

/-- `chunkTextByParagraphs(text, documentId, options)`: paragraph split,
accumulation loop, and the final `if (currentChunk.length > 0) push`. -/
def chunkTextByParagraphs (text documentId : String)
    (maxWordsPerPage minWordsPerPage : Nat) : List ParagraphChunk :=
  let paragraphs := splitParagraphs text
  if paragraphs = [] then []
  else
    let s := chunkLoop documentId maxWordsPerPage minWordsPerPage paragraphs
      { chunks := [], currentChunk := [], currentWordCount := 0
        totalWordIndex := 0, chunkStartWordIndex := 0 }
    if s.currentChunk ≠ [] then s.chunks ++ [closeChunk documentId s] else s.chunks

/-! ### Chunk-sequence invariants -/

/-- Adjacent word-index contiguity of a chunk sequence:
`chunk[i].endWordIndex + 1 == chunk[i+1].startWordIndex` for all adjacent pairs. -/
def contiguousB : List ParagraphChunk → Bool
  | [] => true
  | [_] => true
  | c :: c' :: rest => (c.endWordIndex + 1 == c'.startWordIndex) && contiguousB (c' :: rest)

theorem contiguousB_cons_cons (c c' : ParagraphChunk) (rest : List ParagraphChunk) :
    contiguousB (c :: c' :: rest)
      = ((c.endWordIndex + 1 == c'.startWordIndex) && contiguousB (c' :: rest)) := rfl

/-- Replacing the last element by one with the same `startWordIndex`
preserves contiguity (only the last element's start is constrained). -/
theorem contiguousB_replace_last (cs : List ParagraphChunk) (a b : ParagraphChunk)
    (h : contiguousB (cs ++ [a]) = true) (hs : b.startWordIndex = a.startWordIndex) :
    contiguousB (cs ++ [b]) = true := by
  induction cs with
  | nil => rfl
  | cons c cs ih =>
    cases cs with
    | nil =>
      simp only [List.cons_append, List.nil_append, contiguousB_cons_cons, contiguousB,
        Bool.and_eq_true, beq_iff_eq] at h ⊢
      exact ⟨hs ▸ h.1, trivial⟩
    | cons c' cs' =>
      simp only [List.cons_append, contiguousB_cons_cons, Bool.and_eq_true] at h ⊢
      exact ⟨h.1, by simpa using ih (by simpa using h.2)⟩

/-- Appending an element that starts right after the current last element
preserves contiguity. -/
theorem contiguousB_snoc (cs : List ParagraphChunk) (a b : ParagraphChunk)
    (h : contiguousB (cs ++ [a]) = true) (hs : b.startWordIndex = a.endWordIndex + 1) :
    contiguousB ((cs ++ [a]) ++ [b]) = true := by
  induction cs with
  | nil =>
    simp only [List.nil_append, List.cons_append, contiguousB_cons_cons, contiguousB,
      Bool.and_eq_true, beq_iff_eq]
    exact ⟨hs.symm, trivial⟩
  | cons c cs ih =>
    cases cs with
    | nil =>
      simp only [List.cons_append, List.nil_append, contiguousB_cons_cons, contiguousB,
        Bool.and_eq_true, beq_iff_eq] at h ⊢
      exact ⟨h.1, hs.symm, trivial⟩
    | cons c' cs' =>
      simp only [List.cons_append, contiguousB_cons_cons, Bool.and_eq_true] at h ⊢
      exact ⟨h.1, by simpa using ih (by simpa using h.2)⟩

/-- Contiguity of a sequence with its last element dropped. -/
theorem contiguousB_of_snoc (cs : List ParagraphChunk) (a : ParagraphChunk)
    (h : contiguousB (cs ++ [a]) = true) : contiguousB cs = true := by
  induction cs with
  | nil => rfl
  | cons c cs ih =>
    cases cs with
    | nil => rfl
    | cons c' cs' =>
      simp only [List.cons_append, contiguousB_cons_cons, Bool.and_eq_true] at h ⊢
      exact ⟨h.1, by simpa using ih (by simpa using h.2)⟩

/-- Contiguity gives the indexed adjacency equation. -/
theorem contiguousB_adjacent (cs : List ParagraphChunk) (h : contiguousB cs = true) :
    ∀ i, (hi : i + 1 < cs.length) →
      (cs.get ⟨i, by omega⟩).endWordIndex + 1 = (cs.get ⟨i + 1, hi⟩).startWordIndex := by
  induction cs with
  | nil => intro i hi; simp at hi
  | cons c cs ih =>
    cases cs with
    | nil => intro i hi; simp at hi
    | cons c' cs' =>
      rw [contiguousB_cons_cons, Bool.and_eq_true, beq_iff_eq] at h
      intro i hi
      cases i with
      | zero => exact h.1
      | succ j => exact ih h.2 j (by simpa using hi)

/-! ### Chunker loop invariant -/

/-- The paragraphs already distributed: chunks' paragraph lists followed by
the still-open accumulation buffer. -/
def distributedParagraphs (s : ChunkState) : List String :=
  (s.chunks.map (fun c => c.paragraphs)).flatten ++ s.currentChunk

/-- Invariant of the chunker loop state. -/
def ChunkInv (documentId : String) (s : ChunkState) : Prop :=
  s.chunks.map (fun c => c.chunkIndex) = List.range s.chunks.length
  ∧ s.chunkStartWordIndex + s.currentWordCount = s.totalWordIndex
  ∧ contiguousB (s.chunks ++ [closeChunk documentId s]) = true

theorem chunkInv_init (documentId : String) :
    ChunkInv documentId
      { chunks := [], currentChunk := [], currentWordCount := 0
        totalWordIndex := 0, chunkStartWordIndex := 0 } :=
  ⟨rfl, rfl, rfl⟩

/-- One loop iteration preserves the invariant and distributes exactly the
incoming paragraph. -/
theorem chunkStep_inv (documentId : String) (maxW minW : Nat) (p : String)
    (isLast : Bool) (s : ChunkState) (h : ChunkInv documentId s) :
    ChunkInv documentId (chunkStep documentId maxW minW p isLast s)
    ∧ distributedParagraphs (chunkStep documentId maxW minW p isLast s)
        = distributedParagraphs s ++ [p] := by
  obtain ⟨hA, hB, hC⟩ := h
  by_cases h1 : s.currentWordCount > 0 ∧ s.currentWordCount + countWords p > maxW
  · by_cases h2 : s.currentWordCount ≥ minW ∨ isLast = true
    · -- close the current chunk, start a new one with `p`
      have htot : 1 ≤ s.totalWordIndex := by omega
      refine ⟨⟨?_, ?_, ?_⟩, ?_⟩
      · simp [chunkStep, h1, h2, closeChunk, List.range_succ, hA]
      · simp [chunkStep, h1, h2]
      · have := contiguousB_snoc (s.chunks) (closeChunk documentId s)
          (closeChunk documentId
            (chunkStep documentId maxW minW p isLast s)) hC
          (by simp [chunkStep, h1, h2, closeChunk]; omega)
        simpa [chunkStep, h1, h2, closeChunk] using this
      · simp [chunkStep, h1, h2, distributedParagraphs, closeChunk]
    · -- current chunk too small: force-append the paragraph
      refine ⟨⟨?_, ?_, ?_⟩, ?_⟩
      · simpa [chunkStep, h1, h2] using hA
      · simp [chunkStep, h1, h2]; omega
      · have := contiguousB_replace_last (s.chunks) (closeChunk documentId s)
          (closeChunk documentId
            (chunkStep documentId maxW minW p isLast s)) hC
          (by simp [chunkStep, h1, h2, closeChunk])
        simpa [chunkStep, h1, h2] using this
      · simp [chunkStep, h1, h2, distributedParagraphs]
  · -- paragraph fits: append it to the current chunk
    refine ⟨⟨?_, ?_, ?_⟩, ?_⟩
    · simpa [chunkStep, h1] using hA
    · simp [chunkStep, h1]; omega
    · have := contiguousB_replace_last (s.chunks) (closeChunk documentId s)
        (closeChunk documentId
          (chunkStep documentId maxW minW p isLast s)) hC
        (by simp [chunkStep, h1, closeChunk])
      simpa [chunkStep, h1] using this
    · simp [chunkStep, h1, distributedParagraphs]

/-- The loop preserves the invariant and distributes all paragraphs, in
order. -/
theorem chunkLoop_inv (documentId : String) (maxW minW : Nat) :
    ∀ (ps : List String) (s : ChunkState), ChunkInv documentId s →
      ChunkInv documentId (chunkLoop documentId maxW minW ps s)
      ∧ distributedParagraphs (chunkLoop documentId maxW minW ps s)
          = distributedParagraphs s ++ ps := by
  intro ps
  induction ps with
  | nil => intro s h; exact ⟨h, by simp [chunkLoop]⟩
  | cons p rest ih =>
    intro s h
    obtain ⟨hstep, hdist⟩ := chunkStep_inv documentId maxW minW p rest.isEmpty s h
    obtain ⟨hout, hdout⟩ := ih _ hstep
    refine ⟨by simpa [chunkLoop] using hout, ?_⟩
    simp only [chunkLoop]
    rw [hdout, hdist, List.append_assoc]
    rfl

/-- Chunker correctness: the produced chunk list is contiguous, indexed
`0,1,2,...`, and distributes exactly the input's paragraph sequence. -/
theorem chunkTextByParagraphs_spec (text documentId : String) (maxW minW : Nat) :
    contiguousB (chunkTextByParagraphs text documentId maxW minW) = true
    ∧ (chunkTextByParagraphs text documentId maxW minW).map (fun c => c.chunkIndex)
        = List.range (chunkTextByParagraphs text documentId maxW minW).length
    ∧ ((chunkTextByParagraphs text documentId maxW minW).map (fun c => c.paragraphs)).flatten
        = splitParagraphs text := by
  simp only [chunkTextByParagraphs]
  by_cases hp : splitParagraphs text = []
  · simp [hp, contiguousB]
  · simp only [if_neg hp]
    obtain ⟨⟨hA, hB, hC⟩, hD⟩ :=
      chunkLoop_inv documentId maxW minW (splitParagraphs text)
        { chunks := [], currentChunk := [], currentWordCount := 0
          totalWordIndex := 0, chunkStartWordIndex := 0 }
        (chunkInv_init documentId)
    set s := chunkLoop documentId maxW minW (splitParagraphs text)
      { chunks := [], currentChunk := [], currentWordCount := 0
        totalWordIndex := 0, chunkStartWordIndex := 0 } with hs
    have hD' : (s.chunks.map (fun c => c.paragraphs)).flatten ++ s.currentChunk
        = splitParagraphs text := by
      simpa [distributedParagraphs] using hD
    by_cases hcur : s.currentChunk = []
    · simp only [hcur, ne_eq, not_true_eq_false, if_false, ite_false, if_neg]
      refine ⟨?_, ?_, ?_⟩
      · simp [hcur, contiguousB_of_snoc _ _ hC]
      · simpa [hcur] using hA
      · simpa [hcur] using hD'
    · simp only [hcur, ne_eq, not_false_eq_true, if_true, ite_true, if_pos]
      refine ⟨?_, ?_, ?_⟩
      · simp [hcur, hC]
      · simp [hcur, closeChunk, List.range_succ, hA]
      · simpa [hcur, closeChunk] using hD'

/-- From `map chunkIndex = range`, each chunk's index is its position. -/
theorem chunkIndex_eq_position (cs : List ParagraphChunk)
    (h : cs.map (fun c => c.chunkIndex) = List.range cs.length)
    (i : Nat) (hi : i < cs.length) : (cs.get ⟨i, hi⟩).chunkIndex = i := by
  have h3 : (cs.map (fun c => c.chunkIndex))[i]? = (List.range cs.length)[i]? := by
    rw [h]
  rw [List.getElem?_map, List.getElem?_eq_getElem hi] at h3
  simpa [List.get_eq_getElem, List.getElem?_range, hi] using h3

/-- C1: for every input text, the chunk list produced by the Chunker
satisfies `chunk[i].endWordIndex + 1 = chunk[i+1].startWordIndex` for every
adjacent pair, `chunk[i].chunkIndex = i` for every position, and
concatenating the chunk contents in `chunkIndex` order reconstructs the
original paragraph sequence: every non-empty trimmed paragraph appears,
whole and in order, in exactly one chunk. -/
theorem chunker_contiguity (text documentId : String) (maxW minW : Nat) :
    (∀ i, (hi : i + 1 < (chunkTextByParagraphs text documentId maxW minW).length) →
      ((chunkTextByParagraphs text documentId maxW minW).get ⟨i, by omega⟩).endWordIndex + 1
        = ((chunkTextByParagraphs text documentId maxW minW).get ⟨i + 1, hi⟩).startWordIndex)
    ∧ (∀ i, (hi : i < (chunkTextByParagraphs text documentId maxW minW).length) →
      ((chunkTextByParagraphs text documentId maxW minW).get ⟨i, hi⟩).chunkIndex = i)
    ∧ ((chunkTextByParagraphs text documentId maxW minW).map (fun c => c.paragraphs)).flatten
        = splitParagraphs text := by
  obtain ⟨h1, h2, h3⟩ := chunkTextByParagraphs_spec text documentId maxW minW
  exact ⟨contiguousB_adjacent _ h1, fun i hi => chunkIndex_eq_position _ h2 i hi, h3⟩

/-- Witness for C1 at a concrete input producing two chunks. -/
theorem chunker_contiguity_witness :
    0 + 1 < (chunkTextByParagraphs "a\nb b b b b b\nc" "doc" 5 3).length
    ∧ ((chunkTextByParagraphs "a\nb b b b b b\nc" "doc" 5 3).get
        ⟨0, by decide⟩).endWordIndex + 1
      = ((chunkTextByParagraphs "a\nb b b b b b\nc" "doc" 5 3).get
        ⟨1, by decide⟩).startWordIndex
    ∧ ((chunkTextByParagraphs "a\nb b b b b b\nc" "doc" 5 3).get
        ⟨0, by decide⟩).chunkIndex = 0
    ∧ ((chunkTextByParagraphs "a\nb b b b b b\nc" "doc" 5 3).map
        (fun c => c.paragraphs)).flatten = splitParagraphs "a\nb b b b b b\nc" :=
  ⟨by decide, (chunker_contiguity "a\nb b b b b b\nc" "doc" 5 3).1 0 (by decide),
    (chunker_contiguity "a\nb b b b b b\nc" "doc" 5 3).2.1 0 (by decide),
    (chunker_contiguity "a\nb b b b b b\nc" "doc" 5 3).2.2⟩

/-- C9 counterexample: with `maxWordsPerPage = 5`, `minWordsPerPage = 3`,
the text `"a\nb b b b b b\nc"` contains the 6-word paragraph
`"b b b b b b"` (6 > 5 = targetChunkWords), yet the chunk containing it
also contains the preceding 1-word paragraph `"a"`: the preceding
accumulation was below `minWordsPerPage`, so the source force-appends the
oversized paragraph instead of closing the chunk. -/
theorem oversized_paragraph_not_alone :
    countWords "b b b b b b" = 6
    ∧ (chunkTextByParagraphs "a\nb b b b b b\nc" "doc" 5 3).map (fun c => c.paragraphs)
        = [["a", "b b b b b b"], ["c"]] := by
  constructor
  · decide
  · decide

/-- C9 (amended): an oversized paragraph is never split across chunks —
it appears whole inside exactly one chunk (this is true of every
paragraph, oversized or not, by C1's reconstruction property); and it
forms a chunk by itself whenever the accumulation preceding it is empty
or already has at least `minWordsPerPage` words, or it is the final
paragraph.  When a non-final oversized paragraph follows an accumulation
below `minWordsPerPage`, the source force-appends it to that accumulation
instead. -/
theorem oversized_paragraph_whole (text documentId : String) (maxW minW : Nat) :
    ((chunkTextByParagraphs text documentId maxW minW).map (fun c => c.paragraphs)).flatten
        = splitParagraphs text
    ∧ (chunkTextByParagraphs "x y z\n\nb b b b b b\nc" "doc" 5 3).map (fun c => c.paragraphs)
        = [["x y z"], ["b b b b b b"], ["c"]] := by
  exact ⟨(chunkTextByParagraphs_spec text documentId maxW minW).2.2, by decide⟩

/-- C10: an input whose below-minimum chunk is not in last position: with
`maxWordsPerPage = 5`, `minWordsPerPage = 3`, the text `"a\nb b b b b b"`
(a 1-word paragraph followed by a final 6-word paragraph) makes the
final-paragraph escape hatch (`i === paragraphs.length - 1`) close the
undersized 1-word accumulation early: chunk 0 has `wordCount = 1 < 3` and
is not the last chunk. -/
theorem undersized_chunk_not_last :
    ∃ (text documentId : String) (maxW minW : Nat) (c : ParagraphChunk)
      (cs : List ParagraphChunk),
      chunkTextByParagraphs text documentId maxW minW = c :: cs
      ∧ cs ≠ [] ∧ c.wordCount < minW := by
  refine ⟨"a\nb b b b b b", "doc", 5, 3,
    (chunkTextByParagraphs "a\nb b b b b b" "doc" 5 3).head (by decide),
    (chunkTextByParagraphs "a\nb b b b b b" "doc" 5 3).tail, by decide, by decide, by decide⟩

/-! ## Virtualization window manager

Two prototypes exist in the repository:
* `useVirtualization.ts` computes the materialized window directly from
  the current page (`visibleChunks`);
* `useVirtualScroll.ts` computes it from the scroll offset and produces
  positioned `VirtualItem`s (`virtualItems`). -/

/-- `visibleChunks` of `useVirtualization.ts` (lines 21-31):
`start = Math.max(0, currentPage - bufferSize)`,
`end = Math.min(chunks.length, currentPage + bufferSize + 1)`,
`chunks.slice(start, end)`.  `currentPage` is a chunk index, hence `Nat`
(it is initialized to 0 and only ever set to chunk indices);
`Math.max(0, ·)` is `Nat` truncated subtraction. -/
def visibleChunks {α : Type*} (chunks : List α) (currentPage bufferSize : Nat) : List α :=
  let start := currentPage - bufferSize
  let stop := min chunks.length (currentPage + bufferSize + 1)
  (chunks.take stop).drop start

theorem drop_range' : ∀ (m s n : Nat), (List.range' s n).drop m = List.range' (s + m) (n - m)
  | 0, s, n => by simp
  | m + 1, s, 0 => by simp
  | m + 1, s, n + 1 => by
    rw [List.range'_succ, List.drop_succ_cons, drop_range' m (s + 1) n]
    have h1 : s + 1 + m = s + (m + 1) := by omega
    have h2 : n - m = n + 1 - (m + 1) := by omega
    rw [h1, h2]

/-- The window over a document of `total` chunks contains exactly the
indices of `[currentPage - buffer, currentPage + buffer] ∩ [0, total)`. -/
theorem mem_visibleChunks (total c o i : Nat) :
    i ∈ visibleChunks (List.range total) c o ↔ c - o ≤ i ∧ i ≤ c + o ∧ i < total := by
  simp only [visibleChunks, List.length_range, List.take_range]
  rw [List.range_eq_range', drop_range', List.mem_range'_1]
  omega

/-- C2: for every `currentIndex`, `totalChunks ≥ 1` and `overscan ≥ 0`,
the set of chunk indices in the computed window is exactly the integer
interval `[currentIndex - overscan, currentIndex + overscan]` intersected
with `[0, totalChunks - 1]`; `computeWindow(0, 500, 2)` yields `{0,1,2}`
only and `computeWindow(499, 500, 2)` yields `{497,498,499}` only
(indices are naturals, so no negative index can occur). -/
theorem window_clamping (total c o : Nat) (h : 1 ≤ total) :
    (∀ i, i ∈ visibleChunks (List.range total) c o ↔ c - o ≤ i ∧ i ≤ c + o ∧ i < total)
    ∧ visibleChunks (List.range 500) 0 2 = [0, 1, 2]
    ∧ visibleChunks (List.range 500) 499 2 = [497, 498, 499] :=
  ⟨fun i => mem_visibleChunks total c o i, by decide, by decide⟩

/-- Witness for C2 at `total = 500`, `currentIndex = 250`, `overscan = 2`. -/
theorem window_clamping_witness :
    1 ≤ 500
    ∧ (250 ∈ visibleChunks (List.range 500) 250 2 ↔ 250 - 2 ≤ 250 ∧ 250 ≤ 250 + 2 ∧ 250 < 500)
    ∧ visibleChunks (List.range 500) 0 2 = [0, 1, 2] :=
  ⟨by decide, (window_clamping 500 250 2 (by decide)).1 250,
    (window_clamping 500 250 2 (by decide)).2.1⟩

/-- The `VirtualItem` record of `useVirtualScroll.ts`. -/
structure VirtualItem (α : Type*) where
  chunk : α
  index : Nat
  offset : Nat
  height : Nat
  isVisible : Bool
  isPrefetched : Bool
  deriving Repr, DecidableEq

/-- `Math.ceil(a / b)` for naturals (`b > 0`). -/
def ceilDiv (a b : Nat) : Nat := (a + b - 1) / b

/-- The item literal pushed by the `virtualItems` loop:
`{ chunk, index: i, offset: i * itemHeight, height: itemHeight,
   isVisible: true, isPrefetched: false }`. -/
def mkVirtualItem {α : Type*} (chunk : α) (i itemHeight : Nat) : VirtualItem α :=
  { chunk := chunk, index := i, offset := i * itemHeight, height := itemHeight
    isVisible := true, isPrefetched := false }

/-- `visibleRange` of `useVirtualScroll.ts` (lines 38-46):
`startIndex = Math.max(0, Math.floor(scrollTop / itemHeight) - overscan)`,
`endIndex = Math.min(chunks.length - 1,
   Math.ceil((scrollTop + containerHeight) / itemHeight) + overscan)`. -/
def visibleRange (chunksLen scrollTop containerHeight itemHeight overscan : Nat) : Nat × Nat :=
  (scrollTop / itemHeight - overscan,
   min (chunksLen - 1) (ceilDiv (scrollTop + containerHeight) itemHeight + overscan))

/-- `virtualItems` of `useVirtualScroll.ts` (lines 63-91): one item per
index of `[startIndex, endIndex]`, skipping `i ≥ chunks.length`
(`chunks[i]?` is `none` exactly there).  The source's `processedIndices`
set never rejects anything because the loop indices are strictly
increasing, and the prefetch branch is commented out in the source. -/
def virtualItems {α : Type*} (chunks : List α)
    (scrollTop containerHeight itemHeight overscan : Nat) : List (VirtualItem α) :=
  let r := visibleRange chunks.length scrollTop containerHeight itemHeight overscan
  (List.range' r.1 (r.2 + 1 - r.1)).filterMap
    (fun i => (chunks[i]?).map (fun ch => mkVirtualItem ch i itemHeight))

/-- The indices of the produced items are the in-bounds loop indices. -/
theorem virtualItems_map_index {α : Type*} (chunks : List α) (itemHeight : Nat) :
    ∀ (l : List Nat),
      (l.filterMap (fun i => (chunks[i]?).map (fun ch => mkVirtualItem ch i itemHeight))).map
          (fun it => it.index)
        = l.filter (fun i => decide (i < chunks.length)) := by
  intro l
  induction l with
  | nil => rfl
  | cons i l ih =>
    by_cases hi : i < chunks.length
    · rw [List.filterMap_cons, List.getElem?_eq_getElem hi]
      simpa [mkVirtualItem, hi] using ih
    · rw [List.filterMap_cons, List.getElem?_eq_none (by omega)]
      simpa [hi] using ih

/-- Filtering `· < m` keeps the in-bounds prefix of an ascending range. -/
theorem filter_range'_lt : ∀ (n s m : Nat),
    (List.range' s n).filter (fun i => decide (i < m)) = List.range' s (min n (m - s))
  | 0, s, m => by simp
  | n + 1, s, m => by
    rw [List.range'_succ, List.filter_cons]
    by_cases hs : s < m
    · have h1 : min (n + 1) (m - s) = min n (m - (s + 1)) + 1 := by omega
      rw [h1, List.range'_succ]
      simp [hs, filter_range'_lt n (s + 1) m]
    · have h0 : min (n + 1) (m - s) = 0 := by omega
      have : (List.range' (s + 1) n).filter (fun i => decide (i < m)) = [] := by
        rw [List.filter_eq_nil_iff]
        intro a ha
        rw [List.mem_range'_1] at ha
        simpa using by omega
      simp [hs, h0, this]

/-- Each produced item sits at position `index - startIndex`, so the
`j`-th item has index `startIndex + j`. -/
theorem virtualItems_get_index {α : Type*} (chunks : List α)
    (scrollTop containerHeight itemHeight overscan : Nat) (j : Nat)
    (hj : j < (virtualItems chunks scrollTop containerHeight itemHeight overscan).length) :
    ((virtualItems chunks scrollTop containerHeight itemHeight overscan).get ⟨j, hj⟩).index
      = (visibleRange chunks.length scrollTop containerHeight itemHeight overscan).1 + j := by
  set items := virtualItems chunks scrollTop containerHeight itemHeight overscan with hitems
  set r := visibleRange chunks.length scrollTop containerHeight itemHeight overscan with hr
  have hmap : items.map (fun it => it.index)
      = List.range' r.1 (min (r.2 + 1 - r.1) (chunks.length - r.1)) := by
    rw [hitems, virtualItems, ← hr, virtualItems_map_index, filter_range'_lt]
  have hlen : items.length = min (r.2 + 1 - r.1) (chunks.length - r.1) := by
    have := congrArg List.length hmap
    simpa using this
  have h3 : (items.map (fun it => it.index))[j]?
      = (List.range' r.1 (min (r.2 + 1 - r.1) (chunks.length - r.1)))[j]? := by
    rw [hmap]
  rw [List.getElem?_map, List.getElem?_eq_getElem hj,
    List.getElem?_eq_getElem (by rw [List.length_range']; omega)] at h3
  simpa [List.get_eq_getElem, List.getElem_range'] using h3

/-- Every produced item carries `offset = index * itemHeight` and
`height = itemHeight`. -/
theorem virtualItems_offset_height {α : Type*} (chunks : List α)
    (scrollTop containerHeight itemHeight overscan : Nat)
    (it : VirtualItem α)
    (hmem : it ∈ virtualItems chunks scrollTop containerHeight itemHeight overscan) :
    it.offset = it.index * itemHeight ∧ it.height = itemHeight := by
  rw [virtualItems, List.mem_filterMap] at hmem
  obtain ⟨i, _, hi⟩ := hmem
  rcases Option.map_eq_some'.mp hi with ⟨ch, _, rfl⟩
  exact ⟨rfl, rfl⟩

/-- C3: every `VirtualItem` has `topOffset = chunkIndex * fixedChunkHeight`
and `height = fixedChunkHeight`; consecutive items' offsets are spaced
exactly `fixedChunkHeight` apart (gapless, non-overlapping) and are
strictly increasing when `fixedChunkHeight > 0`; the window at
`currentIndex = 250`, `totalChunks = 500`, `overscan = 2` is exactly the
five indices `{248,...,252}`, whose items' offsets are the strictly
increasing multiples of `fixedChunkHeight = 400`. -/
theorem virtual_item_positioning {α : Type*} (chunks : List α)
    (scrollTop containerHeight itemHeight overscan : Nat) :
    (∀ it ∈ virtualItems chunks scrollTop containerHeight itemHeight overscan,
      it.offset = it.index * itemHeight ∧ it.height = itemHeight)
    ∧ (∀ j, (hj : j + 1 < (virtualItems chunks scrollTop containerHeight itemHeight
          overscan).length) →
        ((virtualItems chunks scrollTop containerHeight itemHeight overscan).get
            ⟨j + 1, hj⟩).offset
          = ((virtualItems chunks scrollTop containerHeight itemHeight overscan).get
            ⟨j, by omega⟩).offset + itemHeight
        ∧ (0 < itemHeight →
          ((virtualItems chunks scrollTop containerHeight itemHeight overscan).get
              ⟨j, by omega⟩).offset
            < ((virtualItems chunks scrollTop containerHeight itemHeight overscan).get
              ⟨j + 1, hj⟩).offset))
    ∧ visibleChunks (List.range 500) 250 2 = [248, 249, 250, 251, 252]
    ∧ (visibleChunks (List.range 500) 250 2).map (fun i => (mkVirtualItem i i 400).offset)
        = [99200, 99600, 100000, 100400, 100800] := by
  refine ⟨fun it hmem =>
      virtualItems_offset_height chunks scrollTop containerHeight itemHeight overscan it hmem,
    fun j hj => ?_, by decide, by decide⟩
  have hoh1 := virtualItems_offset_height chunks scrollTop containerHeight itemHeight overscan
    ((virtualItems chunks scrollTop containerHeight itemHeight overscan).get ⟨j + 1, hj⟩)
    (List.get_mem _ _ _)
  have hoh0 := virtualItems_offset_height chunks scrollTop containerHeight itemHeight overscan
    ((virtualItems chunks scrollTop containerHeight itemHeight overscan).get ⟨j, by omega⟩)
    (List.get_mem _ _ _)
  have hidx1 := virtualItems_get_index chunks scrollTop containerHeight itemHeight overscan
    (j + 1) hj
  have hidx0 := virtualItems_get_index chunks scrollTop containerHeight itemHeight overscan
    j (by omega)
  constructor
  · rw [hoh1.1, hoh0.1, hidx1, hidx0]
    ring
  · intro hpos
    rw [hoh1.1, hoh0.1, hidx1, hidx0]
    have hlt : (visibleRange chunks.length scrollTop containerHeight itemHeight overscan).1
        + j < (visibleRange chunks.length scrollTop containerHeight itemHeight overscan).1
        + (j + 1) := by omega
    exact Nat.mul_lt_mul_of_lt_of_le hlt (Nat.le_refl itemHeight) hpos

/-- Witness for C3 on a concrete three-chunk document. -/
theorem virtual_item_positioning_witness :
    0 + 1 < (virtualItems (List.range 3) 0 400 400 1).length
    ∧ 0 < 400
    ∧ ((virtualItems (List.range 3) 0 400 400 1).get ⟨0 + 1, by decide⟩).offset
        = ((virtualItems (List.range 3) 0 400 400 1).get ⟨0, by decide⟩).offset + 400
    ∧ ((virtualItems (List.range 3) 0 400 400 1).get ⟨0, by decide⟩).offset
        < ((virtualItems (List.range 3) 0 400 400 1).get ⟨0 + 1, by decide⟩).offset :=
  ⟨by decide, by decide,
    ((virtual_item_positioning (List.range 3) 0 400 400 1).2.1 0 (by decide)).1,
    ((virtual_item_positioning (List.range 3) 0 400 400 1).2.1 0 (by decide)).2 (by decide)⟩

/-! ## Viewport tracker (`src/unnamed/part_007`, IntersectionObserver
callback of `useVirtualization`, lines 92-131)

The callback assembles, for every intersecting entry with a `data-page`
attribute, a candidate `{pageIndex, distanceFromTop, intersectionRatio}`,
sorts the candidates with a comparator (near-ties in distance, gap
< 50 px, compare by descending intersection ratio; otherwise by ascending
distance), and makes the head's `pageIndex` the current page.

Distances and ratios are DOM floats used only through subtraction,
absolute value and order comparison, so they are modelled in an arbitrary
linear ordered commutative ring `α` (with `ℤ`, e.g. ratios in
thousandths, for concrete evaluation).  `Array.prototype.sort` is stable,
and every stable sort agrees with stable insertion sort whenever the
comparator is consistent; we model it by `List.insertionSort` on the
comparator's "may stay before" relation. -/

/-- A candidate page node, as assembled by the callback
(`pageIndex = parseInt(data-page) - 1`, or `-1` when the attribute is
missing). -/
structure PageCandidate (α : Type*) where
  pageIndex : Int
  distanceFromTop : α
  intersectionRatio : α
  deriving Repr, DecidableEq

/-- The sort comparator (part_007 lines 113-119):
`if (Math.abs(a.distanceFromTop - b.distanceFromTop) < 50)
   return b.intersectionRatio - a.intersectionRatio;
 return a.distanceFromTop - b.distanceFromTop;` -/
def candCmp {α : Type*} [LinearOrderedCommRing α] (a b : PageCandidate α) : α :=
  if |a.distanceFromTop - b.distanceFromTop| < 50 then
    b.intersectionRatio - a.intersectionRatio
  else
    a.distanceFromTop - b.distanceFromTop

/-- `a` may stay before `b`: comparator result ≤ 0. -/
def candBefore {α : Type*} [LinearOrderedCommRing α] (a b : PageCandidate α) : Prop :=
  candCmp a b ≤ 0

instance {α : Type*} [LinearOrderedCommRing α] : DecidableRel (candBefore (α := α)) :=
  fun a b => inferInstanceAs (Decidable (candCmp a b ≤ 0))

/-- The `.sort(...)` call, as stable insertion sort on `candBefore`. -/
def sortCandidates {α : Type*} [LinearOrderedCommRing α]
    (cands : List (PageCandidate α)) : List (PageCandidate α) :=
  cands.insertionSort candBefore

/-- One raw `IntersectionObserverEntry` as used by the callback. -/
structure ObserverEntry (α : Type*) where
  isIntersecting : Bool
  pageIndex : Int
  distanceFromTop : α
  intersectionRatio : α
  deriving Repr, DecidableEq

/-- The candidate record assembled from one entry (part_007 lines 94-111). -/
def toCandidate {α : Type*} (e : ObserverEntry α) : PageCandidate α :=
  ⟨e.pageIndex, e.distanceFromTop, e.intersectionRatio⟩

/-- The candidate assembly (part_007 lines 92-112):
filter to intersecting entries, build candidates, drop invalid
(`pageIndex < 0`) ones. -/
def intersectingPages {α : Type*} (entries : List (ObserverEntry α)) :
    List (PageCandidate α) :=
  ((entries.filter (fun e => e.isIntersecting)).map toCandidate).filter
    (fun c => c.pageIndex ≥ 0)

/-- `intersectingPages[0].pageIndex` after sorting, if any candidate. -/
def selectTopCandidate {α : Type*} [LinearOrderedCommRing α]
    (entries : List (ObserverEntry α)) : Option Int :=
  (sortCandidates (intersectingPages entries)).head?.map (fun c => c.pageIndex)

/-- The callback's effect on `currentPage` (part_007 lines 121-131): the
top candidate becomes current (`setCurrentPage` is skipped when equal,
which leaves the same value). -/
def observerUpdate {α : Type*} [LinearOrderedCommRing α]
    (entries : List (ObserverEntry α)) (currentPage : Int) : Int :=
  match selectTopCandidate entries with
  | some p => p
  | none => currentPage

/-- The claim's pairwise ranking rule: `a` must be ranked before `b`. -/
def shouldPrecedeB {α : Type*} [LinearOrderedCommRing α] (a b : PageCandidate α) : Bool :=
  if |a.distanceFromTop - b.distanceFromTop| < 50 then
    decide (a.intersectionRatio > b.intersectionRatio)
  else
    decide (a.distanceFromTop < b.distanceFromTop)

/-- A ranking obeys the claim's rule iff no candidate is placed after one
it must precede. -/
def claimRankedB {α : Type*} [LinearOrderedCommRing α] : List (PageCandidate α) → Bool
  | [] => true
  | x :: rest => (rest.all (fun y => !shouldPrecedeB y x)) && claimRankedB rest

/-- Candidates at distance-≤, the consistent order the comparator realises
on pairwise-separated candidate sets. -/
def distLE {α : Type*} [LinearOrderedCommRing α] (a b : PageCandidate α) : Prop :=
  a.distanceFromTop ≤ b.distanceFromTop

instance {α : Type*} [LinearOrderedCommRing α] : DecidableRel (distLE (α := α)) :=
  fun a b => inferInstanceAs (Decidable (_ ≤ _))

instance {α : Type*} [LinearOrderedCommRing α] : IsTotal (PageCandidate α) distLE :=
  ⟨fun a b => le_total a.distanceFromTop b.distanceFromTop⟩

instance {α : Type*} [LinearOrderedCommRing α] : IsTrans (PageCandidate α) distLE :=
  ⟨fun _ _ _ hab hbc => le_trans hab hbc⟩

theorem orderedInsert_congr {β : Type*} (r s : β → β → Prop)
    [DecidableRel r] [DecidableRel s] (a : β) :
    ∀ (l : List β), (∀ y ∈ l, (r a y ↔ s a y)) →
      l.orderedInsert r a = l.orderedInsert s a
  | [], _ => rfl
  | b :: t, h => by
    have hb : r a b ↔ s a b := h b (by simp)
    by_cases hrb : r a b
    · rw [List.orderedInsert, List.orderedInsert, if_pos hrb, if_pos (hb.mp hrb)]
    · rw [List.orderedInsert, List.orderedInsert, if_neg hrb, if_neg (fun hs => hrb (hb.mpr hs)),
        orderedInsert_congr r s a t (fun y hy => h y (by simp [hy]))]

theorem insertionSort_congr {β : Type*} (r s : β → β → Prop)
    [DecidableRel r] [DecidableRel s] :
    ∀ (l : List β), (∀ x ∈ l, ∀ y ∈ l, (r x y ↔ s x y)) →
      l.insertionSort r = l.insertionSort s
  | [], _ => rfl
  | a :: t, h => by
    rw [List.insertionSort, List.insertionSort,
      insertionSort_congr r s t (fun x hx y hy => h x (by simp [hx]) y (by simp [hy]))]
    apply orderedInsert_congr
    intro y hy
    have : y ∈ t := (List.perm_insertionSort s t).mem_iff.mp hy
    exact h a (by simp) y (by simp [this])

/-- On pairwise distance-separated candidate sets the comparator is
consistent and the sort ranks by ascending distance. -/
theorem sortCandidates_sorted_of_separated {α : Type*} [LinearOrderedCommRing α]
    (cands : List (PageCandidate α))
    (hsep : ∀ a ∈ cands, ∀ b ∈ cands, a ≠ b → 50 ≤ |a.distanceFromTop - b.distanceFromTop|) :
    (sortCandidates cands).Sorted distLE := by
  have hagree : ∀ a ∈ cands, ∀ b ∈ cands, (candBefore a b ↔ distLE a b) := by
    intro a ha b hb
    by_cases hab : a = b
    · subst hab
      have hlt : |a.distanceFromTop - a.distanceFromTop| < (50 : α) := by
        rw [sub_self, abs_zero]
        norm_num
      have h0 : candCmp a a = a.intersectionRatio - a.intersectionRatio := by
        rw [candCmp, if_pos hlt]
      constructor <;> intro _
      · exact le_refl _
      · rw [candBefore, h0]
        simp
    · have h50 := hsep a ha b hb hab
      rw [candBefore, candCmp, if_neg (not_lt.mpr h50), distLE, sub_nonpos]
  rw [sortCandidates, insertionSort_congr candBefore distLE cands hagree]
  exact List.sorted_insertionSort distLE cands

/-- A near-tie pair is ordered by descending intersection ratio, in either
arrival order. -/
theorem sortCandidates_pair_near {α : Type*} [LinearOrderedCommRing α]
    (a b : PageCandidate α)
    (hnear : |a.distanceFromTop - b.distanceFromTop| < 50)
    (hr : b.intersectionRatio < a.intersectionRatio) :
    sortCandidates [a, b] = [a, b] ∧ sortCandidates [b, a] = [a, b] := by
  have hab : candBefore a b := by
    rw [candBefore, candCmp, if_pos hnear]
    exact sub_nonpos.mpr (le_of_lt hr)
  have hba : ¬ candBefore b a := by
    rw [candBefore, candCmp, if_pos (by rwa [abs_sub_comm]), not_le]
    exact sub_pos.mpr hr
  constructor
  · simp [sortCandidates, List.insertionSort, List.orderedInsert, hab]
  · simp [sortCandidates, List.insertionSort, List.orderedInsert, hba]

/-- A separated pair is ordered by ascending distance, in either arrival
order. -/
theorem sortCandidates_pair_far {α : Type*} [LinearOrderedCommRing α]
    (a b : PageCandidate α)
    (hfar : 50 ≤ |a.distanceFromTop - b.distanceFromTop|)
    (hd : a.distanceFromTop < b.distanceFromTop) :
    sortCandidates [a, b] = [a, b] ∧ sortCandidates [b, a] = [a, b] := by
  have hab : candBefore a b := by
    rw [candBefore, candCmp, if_neg (not_lt.mpr hfar)]
    exact sub_nonpos.mpr (le_of_lt hd)
  have hba : ¬ candBefore b a := by
    rw [candBefore, candCmp, if_neg (not_lt.mpr (by rwa [abs_sub_comm])), not_le]
    exact sub_pos.mpr hd
  constructor
  · simp [sortCandidates, List.insertionSort, List.orderedInsert, hab]
  · simp [sortCandidates, List.insertionSort, List.orderedInsert, hba]

/-- C4 counterexample: the three candidates `A = (dist 0, ratio 500)`,
`B = (dist 40, ratio 900)`, `C = (dist 80, ratio 1000)` (ratios in
thousandths) force a cyclic ranking requirement: by near-tie `B` must
precede `A` and `C` must precede `B`, but by distance `A` must precede
`C`.  The code's sorted output violates the claimed pairwise rule, and so
does every permutation of the candidate set — no ranking can satisfy the
claim, whatever order `Array.prototype.sort` produces on this
inconsistent comparator. -/
theorem viewport_tiebreak_counterexample :
    claimRankedB (sortCandidates
      ([⟨0, 0, 500⟩, ⟨1, 40, 900⟩, ⟨2, 80, 1000⟩] : List (PageCandidate ℤ))) = false
    ∧ (([[⟨0, 0, 500⟩, ⟨1, 40, 900⟩, ⟨2, 80, 1000⟩],
         [⟨0, 0, 500⟩, ⟨2, 80, 1000⟩, ⟨1, 40, 900⟩],
         [⟨1, 40, 900⟩, ⟨0, 0, 500⟩, ⟨2, 80, 1000⟩],
         [⟨1, 40, 900⟩, ⟨2, 80, 1000⟩, ⟨0, 0, 500⟩],
         [⟨2, 80, 1000⟩, ⟨0, 0, 500⟩, ⟨1, 40, 900⟩],
         [⟨2, 80, 1000⟩, ⟨1, 40, 900⟩, ⟨0, 0, 500⟩]] :
        List (List (PageCandidate ℤ))).all (fun l => !claimRankedB l)) = true := by
  constructor
  · decide
  · decide

/-- C4 (amended): on candidate sets whose pairwise distances all differ by
at least the 50 px tolerance, the candidates are ranked by ascending
distance-from-top; for two candidates whose distances differ by less than
the tolerance, the one with the higher intersection ratio is ranked first
and its `pageIndex` becomes the current chunk index, identically in
either arrival order (the selection is a pure function of the candidate
list).  For three or more candidates mixing near-ties and separated
pairs, the comparator is not transitive and no ranking can satisfy the
pairwise rule. -/
theorem viewport_tiebreak {α : Type*} [LinearOrderedCommRing α]
    (cands : List (PageCandidate α)) (e1 e2 : ObserverEntry α) (current : Int)
    (hsep : ∀ a ∈ cands, ∀ b ∈ cands, a ≠ b → 50 ≤ |a.distanceFromTop - b.distanceFromTop|)
    (h1 : e1.isIntersecting = true) (h2 : e2.isIntersecting = true)
    (hp1 : 0 ≤ e1.pageIndex) (hp2 : 0 ≤ e2.pageIndex)
    (hnear : |e1.distanceFromTop - e2.distanceFromTop| < 50)
    (hr : e2.intersectionRatio < e1.intersectionRatio) :
    (sortCandidates cands).Sorted distLE
    ∧ selectTopCandidate [e1, e2] = some e1.pageIndex
    ∧ selectTopCandidate [e2, e1] = some e1.pageIndex
    ∧ observerUpdate [e1, e2] current = e1.pageIndex
    ∧ observerUpdate [e2, e1] current = e1.pageIndex := by
  have hpair := sortCandidates_pair_near (toCandidate e1) (toCandidate e2) hnear hr
  have hpages12 : intersectingPages [e1, e2] = [toCandidate e1, toCandidate e2] := by
    simp [intersectingPages, h1, h2, toCandidate, hp1, hp2]
  have hpages21 : intersectingPages [e2, e1] = [toCandidate e2, toCandidate e1] := by
    simp [intersectingPages, h1, h2, toCandidate, hp1, hp2]
  have hsel12 : selectTopCandidate [e1, e2] = some e1.pageIndex := by
    rw [selectTopCandidate, hpages12, hpair.1]
    rfl
  have hsel21 : selectTopCandidate [e2, e1] = some e1.pageIndex := by
    rw [selectTopCandidate, hpages21, hpair.2]
    rfl
  refine ⟨sortCandidates_sorted_of_separated cands hsep, hsel12, hsel21, ?_, ?_⟩
  · rw [observerUpdate, hsel12]
  · rw [observerUpdate, hsel21]

/-- Witness for C4 at concrete integer-valued candidates and entries. -/
theorem viewport_tiebreak_witness :
    (sortCandidates ([⟨0, 0, 1⟩, ⟨1, 100, 2⟩] : List (PageCandidate ℤ))).Sorted distLE
    ∧ selectTopCandidate
        [(⟨true, 3, 10, 900⟩ : ObserverEntry ℤ), ⟨true, 4, 20, 500⟩] = some 3
    ∧ selectTopCandidate
        [(⟨true, 4, 20, 500⟩ : ObserverEntry ℤ), ⟨true, 3, 10, 900⟩] = some 3
    ∧ observerUpdate [(⟨true, 3, 10, 900⟩ : ObserverEntry ℤ), ⟨true, 4, 20, 500⟩] 7 = 3
    ∧ observerUpdate [(⟨true, 4, 20, 500⟩ : ObserverEntry ℤ), ⟨true, 3, 10, 900⟩] 7 = 3 :=
  viewport_tiebreak ([⟨0, 0, 1⟩, ⟨1, 100, 2⟩] : List (PageCandidate ℤ))
    ⟨true, 3, 10, 900⟩ ⟨true, 4, 20, 500⟩ 7
    (by decide) (by decide) (by decide) (by decide) (by decide) (by decide) (by decide)

/-! ## Navigation (`useVirtualization.scrollToChunk`, lines 38-74, and
`useVirtualizedContent.scrollToChunk`, part_006 lines 78-85)

`useVirtualization.scrollToChunk(i)` synchronously sets
`currentPage := i` and schedules a 50 ms timer capturing `i`; an earlier
pending timer is never cancelled.  When a timer fires, it queries the DOM
for `[data-page="${i+1}"]`: after React re-renders, the DOM holds exactly
the pages of the window around the latest `currentPage`, so the element
exists iff `i` is in that window; if found, the timer scrolls to it, else
it logs "Target page element not found" and does nothing.  `runJumps`
models a burst of jump calls inside one 50 ms window (all issued before
the first timer fires, the re-render completing before the timers run);
scroll-triggered intersection updates are outside this model. -/

/-- Navigation state: the tracked page, the scheduled timer targets in
order, and the scroll commands performed so far. -/
structure NavSim where
  currentPage : Nat
  pendingTimers : List Nat
  scrollLog : List Nat
  deriving Repr, DecidableEq

/-- The synchronous part of `scrollToChunk` (lines 47-53). -/
def scrollToChunkSim (s : NavSim) (chunkIndex : Nat) : NavSim :=
  { s with currentPage := chunkIndex
           pendingTimers := s.pendingTimers ++ [chunkIndex] }

/-- The timer bodies (lines 53-73), fired in scheduling order against the
window of the latest `currentPage`: each timer scrolls iff its captured
target's page element is materialized. -/
def firedScrolls (total bufferSize currentPage : Nat) (timers : List Nat) : List Nat :=
  timers.filter (fun i => decide (i ∈ visibleChunks (List.range total) currentPage bufferSize))

/-- Issue a burst of `scrollToChunk` calls, then let all timers fire. -/
def runJumps (total bufferSize : Nat) (targets : List Nat) (s : NavSim) : NavSim :=
  let s1 := targets.foldl scrollToChunkSim s
  { s1 with pendingTimers := []
            scrollLog := s1.scrollLog
              ++ firedScrolls total bufferSize s1.currentPage s1.pendingTimers }

/-- C5 counterexample: `scrollToChunk(10)` immediately followed by
`scrollToChunk(11)` (buffer 2, 50 chunks) performs TWO scroll actions and
the first targets the superseded index 10: the first timer is never
cancelled, and index 10 is still materialized in the window around 11, so
its scroll command fires. -/
theorem navigation_supersession_counterexample :
    (runJumps 50 2 [10, 11] ⟨0, [], []⟩).scrollLog = [10, 11] := by decide

/-- C5 (amended): a later `scrollToChunk` replaces the tracked target
page, and a superseded jump's scroll command is suppressed exactly when
its target is no longer materialized in the window of the latest target;
in particular `jumpToIndex(10)` then `jumpToIndex(20)` (buffer 2)
performs exactly one scroll action, targeting 20.  When the superseded
target is still inside the latest window (within `bufferSize`), its
scroll command fires too. -/
theorem navigation_supersession (total bufferSize a b : Nat) (s : NavSim)
    (hempty : s.pendingTimers = []) (hb : b < total)
    (hout : a ∉ visibleChunks (List.range total) b bufferSize) :
    (runJumps total bufferSize [a, b] s).scrollLog = s.scrollLog ++ [b]
    ∧ (runJumps total bufferSize [a, b] s).currentPage = b
    ∧ (runJumps 50 2 [10, 20] ⟨0, [], []⟩).scrollLog = [20] := by
  have hbmem : b ∈ visibleChunks (List.range total) b bufferSize := by
    rw [mem_visibleChunks]
    omega
  refine ⟨?_, by simp [runJumps, scrollToChunkSim], by decide⟩
  simp [runJumps, scrollToChunkSim, firedScrolls, hempty, hout, hbmem]

/-- Witness for C5 at the claim's concrete scenario. -/
theorem navigation_supersession_witness :
    (runJumps 50 2 [10, 20] ⟨0, [], []⟩).scrollLog = [] ++ [20]
    ∧ (runJumps 50 2 [10, 20] ⟨0, [], []⟩).currentPage = 20 :=
  ⟨(navigation_supersession 50 2 10 20 ⟨0, [], []⟩ rfl (by decide) (by decide)).1,
    (navigation_supersession 50 2 10 20 ⟨0, [], []⟩ rfl (by decide) (by decide)).2.1⟩

/-- `scrollToChunk` of `useVirtualizedContent` (part_006 lines 78-85):
guard `chunkIndex < 0 || chunkIndex >= chunks.length`, else set
`scrollTop := chunkIndex * chunkHeight` and issue that scroll command. -/
def scrollToChunkVC (chunksLen chunkHeight : Nat) (scrollTop : Int) (chunkIndex : Int) :
    Int × Option Int :=
  if chunkIndex < 0 ∨ (chunksLen : Int) ≤ chunkIndex then (scrollTop, none)
  else (chunkIndex * chunkHeight, some (chunkIndex * chunkHeight))

/-- C6 counterexample: in `useVirtualization.scrollToChunk` an
out-of-range jump (index 5 with 3 chunks) issues no scroll command, but
it does NOT leave the tracked current chunk index unchanged:
`setCurrentPage(chunkIndex)` runs before any bounds check, so
`currentPage` becomes 5 (it was 0). -/
theorem out_of_range_counterexample :
    (runJumps 3 2 [5] ⟨0, [], []⟩).scrollLog = []
    ∧ (runJumps 3 2 [5] ⟨0, [], []⟩).currentPage = 5 := by
  constructor
  · decide
  · decide

/-- C6 (amended): an out-of-range jump target issues no scroll command in
either implementation.  `useVirtualizedContent.scrollToChunk` (which
checks `chunkIndex < 0 || chunkIndex >= chunks.length`) also leaves the
scroll state unchanged; `useVirtualization.scrollToChunk` has no bounds
check and records the out-of-range index as the new `currentPage` before
its timer finds no page element to scroll to. -/
theorem out_of_range_dropped (chunksLen chunkHeight : Nat) (st : Int) (i : Int)
    (hout : i < 0 ∨ (chunksLen : Int) ≤ i) :
    scrollToChunkVC chunksLen chunkHeight st i = (st, none)
    ∧ ∀ (total bufferSize t : Nat) (s : NavSim), total ≤ t → s.pendingTimers = [] →
      (runJumps total bufferSize [t] s).scrollLog = s.scrollLog
      ∧ (runJumps total bufferSize [t] s).currentPage = t := by
  constructor
  · simp [scrollToChunkVC, hout]
  · intro total bufferSize t s hge hempty
    have hmem : t ∉ visibleChunks (List.range total) t bufferSize := by
      rw [mem_visibleChunks]
      omega
    constructor
    · simp [runJumps, scrollToChunkSim, firedScrolls, hempty, hmem]
    · simp [runJumps, scrollToChunkSim]

/-- Witness for C6: out-of-range index 5 against 3 chunks. -/
theorem out_of_range_dropped_witness :
    scrollToChunkVC 3 400 0 5 = (0, none)
    ∧ (runJumps 3 2 [5] ⟨0, [], []⟩).scrollLog = ([] : List Nat)
    ∧ (runJumps 3 2 [5] ⟨0, [], []⟩).currentPage = 5 :=
  ⟨(out_of_range_dropped 3 400 0 5 (by decide)).1,
    ((out_of_range_dropped 3 400 0 5 (by decide)).2 3 2 5 ⟨0, [], []⟩ (by decide) rfl).1,
    ((out_of_range_dropped 3 400 0 5 (by decide)).2 3 2 5 ⟨0, [], []⟩ (by decide) rfl).2⟩

/-! ## Content edit router (`OptimizedEditor.tsx`, `UnifiedEditor.tsx`) -/

/-- `ChunkRenderer.handleInput` (OptimizedEditor.tsx lines 96-107): if the
node's item is not flagged visible, the event is prevented and nothing is
forwarded; otherwise the node's text goes upstream as one
`(chunkIndex, content)` delta (`onContentChange`, wired to
`handleChunkChange(item.index, content)`). -/
def handleInput (chunkIndex : Nat) (isVisible : Bool) (nodeText : String) :
    List (Nat × String) :=
  if !isVisible then [] else [(chunkIndex, nodeText)]

/-- The persistence collaborator: apply forwarded save deltas to the
stored chunk contents, in order. -/
def applySaves (store : Nat → Option String) (saves : List (Nat × String)) :
    Nat → Option String :=
  saves.foldl (fun st kv => fun i => if i = kv.1 then some kv.2 else st i) store

/-- C7: an edit event from a node whose `VirtualItem` has
`isVisible = false` is discarded: zero deltas reach the persistence save
interface and no stored chunk content changes. -/
theorem stale_edit_discarded (chunkIndex : Nat) (isVisible : Bool) (nodeText : String)
    (store : Nat → Option String) (h : isVisible = false) :
    handleInput chunkIndex isVisible nodeText = []
    ∧ ∀ i, applySaves store (handleInput chunkIndex isVisible nodeText) i = store i := by
  subst h
  exact ⟨rfl, fun i => rfl⟩

/-- Witness for C7: a hidden node's edit leaves the store untouched. -/
theorem stale_edit_discarded_witness :
    handleInput 5 false "stale text" = []
    ∧ applySaves (fun _ => none) (handleInput 5 false "stale text") 5 = none :=
  ⟨(stale_edit_discarded 5 false "stale text" (fun _ => none) rfl).1,
    (stale_edit_discarded 5 false "stale text" (fun _ => none) rfl).2 5⟩

/-- One section of `handleContentChange` (UnifiedEditor.tsx lines 78-86):
trim the section text, compare with the cached last-known content for the
index (`contentCache.current.get(index)`, `none` when absent), and iff it
differs, update the cache and forward the `(index, trimmed)` delta. -/
def processSection (cache : Nat → Option String) (index : Nat) (content : String) :
    (Nat → Option String) × List (Nat × String) :=
  let trimmed := String.mk (trimChars content.data)
  if some trimmed ≠ cache index then
    (fun i => if i = index then some trimmed else cache i, [(index, trimmed)])
  else
    (cache, [])

/-- The whole handler (lines 72-87): split the editor text into sections
and run the per-section step over them in order
(`sections.forEach((content, index) => ...)`). -/
def handleContentChange (cache : Nat → Option String) (sections : List String) :
    (Nat → Option String) × List (Nat × String) :=
  sections.enum.foldl
    (fun acc p =>
      let r := processSection acc.1 p.1 p.2
      (r.1, acc.2 ++ r.2))
    (cache, [])

/-- C8: an edit whose trimmed text equals the cached last-known content
for that index forwards nothing and leaves the cache unchanged; a
`(chunkIndex, content)` delta is forwarded iff the trimmed content
differs from the cache entry; forwarding writes the new content to the
cache. -/
theorem edit_dedup (cache : Nat → Option String) (k : Nat) (content : String) :
    (cache k = some (String.mk (trimChars content.data)) →
      processSection cache k content = (cache, []))
    ∧ ((processSection cache k content).2 ≠ []
        ↔ some (String.mk (trimChars content.data)) ≠ cache k)
    ∧ (some (String.mk (trimChars content.data)) ≠ cache k →
      (processSection cache k content).1 k = some (String.mk (trimChars content.data))
      ∧ (processSection cache k content).2 = [(k, String.mk (trimChars content.data))]) := by
  by_cases hc : some (String.mk (trimChars content.data)) = cache k
  · refine ⟨fun _ => by simp [processSection, hc.symm], ?_, fun hne => absurd hc hne⟩
    simp [processSection, hc]
  · refine ⟨fun heq => absurd heq.symm hc, ?_, fun _ => ?_⟩
    · simp [processSection, hc]
    · simp [processSection, hc]

/-- Witness for C8: an unchanged edit is suppressed, a changed edit is
forwarded and cached. -/
theorem edit_dedup_witness :
    (processSection (fun i => if i = 0 then some "hi" else none) 0 "hi").2 = []
    ∧ (processSection (fun _ => none) 0 "hi").2 = [(0, String.mk (trimChars "hi".data))]
    ∧ (processSection (fun _ => none) 0 "hi").1 0 = some (String.mk (trimChars "hi".data)) :=
  ⟨congrArg Prod.snd
      ((edit_dedup (fun i => if i = 0 then some "hi" else none) 0 "hi").1 (by decide)),
    ((edit_dedup (fun _ => none) 0 "hi").2.2 (by decide)).2,
    ((edit_dedup (fun _ => none) 0 "hi").2.2 (by decide)).1⟩

end VirtualTextEditor
